import Mathlib

/-!
Shallow embedding of `zero2w_webserver.py`, the serial-gateway web server:
the message buffer (`received_messages`, a `deque(maxlen=100)`), the
receiver loop (`serial_receive_thread`), the write path (`send_to_serial`,
`api_send`), the read path (`api_receive`), the port selection step of
`setup_serial`, and the permissive UTF-8 line decoding of line 106.

Machine-level conventions: Python strings become Lean `String`/`List Char`,
bytes become `List Nat` (each < 256), Python `int` becomes `Int`,
`time.time()` values become `ℚ`.
-/

namespace Zero2W

/-- A received message, as built at lines 111–115 of the source:
`{'id': message_id, 'text': line, 'timestamp': timestamp}`. -/
structure Message where
  id : Nat
  text : String
  timestamp : String
  deriving Repr, DecidableEq

/-- `received_messages = deque(maxlen=100)` (line 44): appending to a full
deque evicts the oldest entry.  General deque-append semantics: append, then
drop from the front down to the capacity. -/
def bufAppend (b : List Message) (m : Message) : List Message :=
  let b' := b ++ [m]
  if 100 < b'.length then b'.drop (b'.length - 100) else b'

/-- The filter at line 208:
`[msg for msg in received_messages if msg['id'] > last_id]`. -/
def query (buf : List Message) (lastId : Int) : List Message :=
  buf.filter (fun m => lastId < (m.id : Int))

/-- Error-handling mode of Python's `bytes.decode('utf-8', errors=...)`.
Line 106 of the source uses `errors='ignore'`. -/
inductive ErrMode where
  | strict
  | ignore
  | replace
  deriving Repr, DecidableEq

/-- Is `b` a UTF-8 continuation byte (`0x80`–`0xBF`)? -/
def isCont (b : Nat) : Bool := 0x80 ≤ b && b < 0xC0

/-- The error chunk a decoding failure contributes: `strict` aborts,
`ignore` contributes nothing, `replace` contributes U+FFFD (one per maximal
invalid subpart, as CPython does). -/
def decodeErr (m : ErrMode) (rest : Option (List Char)) : Option (List Char) :=
  match m with
  | .strict => none
  | .ignore => rest
  | .replace => rest.map (Char.ofNat 0xFFFD :: ·)

/-- Python's UTF-8 decoder over a byte list.  A sequence is one byte
`0x00`–`0x7F`; or a lead byte `0xC2`–`0xF4` followed by continuation bytes,
where the second-byte ranges for `0xE0/0xED/0xF0/0xF4` exclude overlong
forms, surrogates and codepoints above `0x10FFFF`, exactly as CPython's
strict decoder delimits them.  On an invalid subpart (the lead byte plus
the continuation bytes that did match), decoding resumes at the first
non-matching byte and the error policy decides what the subpart yields. -/
def utf8DecodeAux (m : ErrMode) : Nat → List Nat → Option (List Char)
  | _, [] => some []
  | 0, _ :: _ => none
  | fuel + 1, b :: rest =>
    if b < 0x80 then
      (utf8DecodeAux m fuel rest).map (Char.ofNat b :: ·)
    else if b < 0xC2 then
      decodeErr m (utf8DecodeAux m fuel rest)
    else if b < 0xE0 then
      match rest with
      | [] => decodeErr m (some [])
      | b1 :: rest1 =>
        if isCont b1 then
          (utf8DecodeAux m fuel rest1).map
            (Char.ofNat ((b - 0xC0) * 0x40 + (b1 - 0x80)) :: ·)
        else decodeErr m (utf8DecodeAux m fuel rest)
    else if b < 0xF0 then
      match rest with
      | [] => decodeErr m (some [])
      | b1 :: rest1 =>
        if (if b = 0xE0 then 0xA0 else 0x80) ≤ b1 ∧
            b1 < (if b = 0xED then 0xA0 else 0xC0) then
          match rest1 with
          | [] => decodeErr m (some [])
          | b2 :: rest2 =>
            if isCont b2 then
              (utf8DecodeAux m fuel rest2).map
                (Char.ofNat ((b - 0xE0) * 0x1000 + (b1 - 0x80) * 0x40 +
                  (b2 - 0x80)) :: ·)
            else decodeErr m (utf8DecodeAux m fuel rest1)
        else decodeErr m (utf8DecodeAux m fuel rest)
    else if b < 0xF5 then
      match rest with
      | [] => decodeErr m (some [])
      | b1 :: rest1 =>
        if (if b = 0xF0 then 0x90 else 0x80) ≤ b1 ∧
            b1 < (if b = 0xF4 then 0x90 else 0xC0) then
          match rest1 with
          | [] => decodeErr m (some [])
          | b2 :: rest2 =>
            if isCont b2 then
              match rest2 with
              | [] => decodeErr m (some [])
              | b3 :: rest3 =>
                if isCont b3 then
                  (utf8DecodeAux m fuel rest3).map
                    (Char.ofNat ((b - 0xF0) * 0x40000 + (b1 - 0x80) * 0x1000 +
                      (b2 - 0x80) * 0x40 + (b3 - 0x80)) :: ·)
                else decodeErr m (utf8DecodeAux m fuel rest2)
            else decodeErr m (utf8DecodeAux m fuel rest1)
        else decodeErr m (utf8DecodeAux m fuel rest)
    else decodeErr m (utf8DecodeAux m fuel rest)

/-- Python's UTF-8 decoder over a byte list: `utf8DecodeAux` run with
enough fuel (one unit per byte bounds the recursion depth). -/
def utf8DecodeWith (m : ErrMode) (bs : List Nat) : Option (List Char) :=
  utf8DecodeAux m bs.length bs

/-- `bytes.decode('utf-8', errors=m)` as a `String`-valued function. -/
def pyDecode (m : ErrMode) (bs : List Nat) : Option String :=
  (utf8DecodeWith m bs).map fun cs => ⟨cs⟩

/-- The ASCII whitespace characters stripped by Python's `str.rstrip()`. -/
def isPySpace (c : Char) : Bool :=
  c = ' ' || c = '\t' || c = '\n' || c = '\x0b' || c = '\x0c' || c = '\r'

/-- Python's `str.rstrip()` (no argument): drop trailing whitespace. -/
def pyRstrip (s : String) : String :=
  ⟨(s.data.reverse.dropWhile isPySpace).reverse⟩

/-- Line 106: `serial_port.readline().decode('utf-8', errors='ignore').rstrip()`. -/
def decodeLine (raw : List Nat) : String :=
  pyRstrip ((pyDecode .ignore raw).getD "")

/-- State carried across iterations of `serial_receive_thread` (lines 93–138):
whether `serial_port` is set and open, the local `message_id` counter, the
local `last_reconnect_attempt` clock value, and `received_messages`. -/
structure LoopState where
  connOpen : Bool
  messageId : Nat
  lastReconnect : ℚ
  buffer : List Message
  deriving Repr, DecidableEq

/-- What the serial port does during one open-connection iteration:
no pending input, a successful `readline()` returning raw bytes, or a
`SerialException`/`OSError` raised mid-read. -/
inductive SerialEvent where
  | noData
  | data (raw : List Nat)
  | readFail
  deriving Repr, DecidableEq

/-- Environment of one loop iteration: the serial event (used when the
connection is open), the `time.strftime('%H:%M:%S')` result, the
`time.time()` value and the outcome of `setup_serial()` (used when the
connection is closed). -/
structure LoopInput where
  ev : SerialEvent
  ts : String
  now : ℚ
  setupOk : Bool
  deriving Repr, DecidableEq

/-- Thread-local initial values at lines 97–98: `message_id = 0`,
`last_reconnect_attempt = 0`; the thread is started only after a successful
`setup_serial()` (line 262), so the connection begins open. -/
def initLoopState : LoopState :=
  { connOpen := true, messageId := 0, lastReconnect := 0, buffer := [] }

/-- One iteration of the `while running` body (lines 100–138).  The second
component records whether this iteration invoked `setup_serial()` (an open
attempt). -/
def loopStep (s : LoopState) (inp : LoopInput) : LoopState × Bool :=
  if s.connOpen then
    match inp.ev with
    | .noData => (s, false)
    | .data raw =>
      let line := decodeLine raw
      if line ≠ "" then
        ({ s with
            messageId := s.messageId + 1,
            buffer := bufAppend s.buffer
              { id := s.messageId + 1, text := line, timestamp := inp.ts } },
          false)
      else (s, false)
    | .readFail => ({ s with connOpen := false }, false)
  else
    if 2 ≤ inp.now - s.lastReconnect then
      ({ s with lastReconnect := inp.now, connOpen := inp.setupOk }, true)
    else (s, false)

/-- Run the loop over a list of iteration inputs. -/
def runTrace (s : LoopState) (tr : List LoopInput) : LoopState :=
  tr.foldl (fun s i => (loopStep s i).1) s

/-- States the receiver thread can be in after some iterations. -/
def Reachable (s : LoopState) : Prop :=
  ∃ tr : List LoopInput, runTrace initLoopState tr = s

/-- Connection state seen by `send_to_serial` and the routes: whether
`serial_port` is set and open, and the log of byte strings written so far
(observing `serial_port.write`). -/
structure Conn where
  isOpen : Bool
  written : List String
  deriving Repr, DecidableEq

/-- What `serial_port.write` does when invoked: succeeds, raises
`SerialException`/`OSError`, or raises some other `Exception` (e.g. a
`TypeError`/`UnicodeEncodeError` from `(message + "\n").encode('utf-8')`)
carrying message `e`. -/
inductive WriteOutcome where
  | ok
  | serialErr
  | otherErr (e : String)
  deriving Repr, DecidableEq

/-- `send_to_serial` (lines 141–163): returns the `(success, msg)` pair and
the connection state afterwards. -/
def send_to_serial (c : Conn) (message : String) (out : WriteOutcome) :
    (Bool × String) × Conn :=
  if c.isOpen then
    match out with
    | .ok => ((true, "Message sent"), { c with written := c.written ++ [message ++ "\n"] })
    | .serialErr => ((false, "USB connection lost"), { c with isOpen := false })
    | .otherErr e => ((false, e), c)
  else
    ((false, "USB serial not connected"), c)

/-- A JSON reply `{'status': ..., 'message': ...}` from `/api/send`. -/
structure SendResp where
  status : String
  message : String
  deriving Repr, DecidableEq

/-- `api_send` (lines 185–199) on a request whose JSON `message` field is
`message` (Python `data.get('message', '')` gives `''` when absent; `if not
message` on a string is true exactly for the empty string). -/
def api_send (message : String) (c : Conn) (out : WriteOutcome) :
    SendResp × Conn :=
  if message = "" then
    ({ status := "error", message := "Empty message" }, c)
  else
    let r := send_to_serial c message out
    if r.1.1 then
      ({ status := "ok", message := r.1.2 }, r.2)
    else
      ({ status := "error", message := r.1.2 }, r.2)

/-- Strip leading and trailing whitespace, as Python `int(s)` does before
parsing. -/
def pyStrip (s : List Char) : List Char :=
  ((s.dropWhile isPySpace).reverse.dropWhile isPySpace).reverse

/-- Value of a decimal digit run in which single underscores may appear
between digits (Python literal syntax).  `prevDigit` is whether the
previous character was a digit; the run must end in a digit and be
nonempty. -/
def pyDigits : List Char → Nat → Bool → Option Nat
  | [], acc, prevDigit => if prevDigit then some acc else none
  | c :: cs, acc, prevDigit =>
    if c.isDigit then pyDigits cs (acc * 10 + (c.toNat - 48)) true
    else if c = '_' ∧ prevDigit then pyDigits cs acc false
    else none

/-- Python `int(s)` on a string: strip whitespace, optional sign, decimal
digits (underscores allowed between digits); anything else raises
`ValueError`. -/
def pyIntParse (s : String) : Option Int :=
  match pyStrip s.data with
  | '+' :: cs => (pyDigits cs 0 false).map Int.ofNat
  | '-' :: cs => (pyDigits cs 0 false).map (fun n => -(n : Int))
  | cs => (pyDigits cs 0 false).map Int.ofNat

/-- The JSON reply of `/api/receive`. -/
structure ReceiveResp where
  messages : List Message
  usb_connected : Bool
  usb_port : String
  deriving Repr, DecidableEq

/-- `api_receive` (lines 202–216): `last_id = int(request.args.get('last_id', 0))`
raises an unhandled `ValueError` (before the buffer is read under the lock)
when the parameter is present but not a valid integer literal; otherwise
the buffer is filtered by `msg['id'] > last_id`.  The handler only reads
the shared state, so the pair `(buffer, connOpen)` after the request is
returned alongside the response. -/
def api_receive (lastIdArg : Option String) (buf : List Message)
    (connOpen : Bool) (port : Option String) :
    Except String ReceiveResp × (List Message × Bool) :=
  match lastIdArg with
  | none =>
    (.ok { messages := query buf 0, usb_connected := connOpen,
           usb_port := port.getD "N/A" }, (buf, connOpen))
  | some s =>
    match pyIntParse s with
    | none => (.error "ValueError", (buf, connOpen))
    | some n =>
      (.ok { messages := query buf n, usb_connected := connOpen,
             usb_port := port.getD "N/A" }, (buf, connOpen))

/-- Lexicographic comparison of character sequences by code point: the
order Python's `sorted` uses on strings. -/
def strLeB : List Char → List Char → Bool
  | [], _ => true
  | _ :: _, [] => false
  | a :: as, b :: bs =>
    if a < b then true else if b < a then false else strLeB as bs

/-- Python's string order (used by `sorted` at line 66), as a proposition. -/
def pyStrLe (a b : String) : Prop := strLeB a.data b.data = true

instance : DecidableRel pyStrLe := fun _ _ => instDecidableEqBool _ _

/-- The port-discovery step of `setup_serial` (lines 66–74):
`acm_ports = sorted(glob.glob('/dev/ttyACM*'))`; with fewer than two
candidates the function fails (returns `False` after printing), otherwise
the port at index 1 is the target.  `candidates` is the glob result in the
enumeration order the OS happens to produce. -/
def selectPort (candidates : List String) : Option String :=
  let acm_ports := List.insertionSort pyStrLe candidates
  if acm_ports.length < 2 then none else acm_ports[1]?

instance : IsTotal String pyStrLe := by
  constructor
  intro a b
  unfold pyStrLe
  suffices h : ∀ as bs, strLeB as bs = true ∨ strLeB bs as = true from h a.data b.data
  intro as
  induction as with
  | nil => intro bs; left; rfl
  | cons a as ih =>
    intro bs
    cases bs with
    | nil => right; rfl
    | cons b bs =>
      simp only [strLeB]
      rcases lt_trichotomy a b with h | h | h
      · left; rw [if_pos h]
      · subst h
        simp only [if_neg (lt_irrefl a)]
        exact ih bs
      · right; rw [if_pos h]

instance : IsTrans String pyStrLe := by
  constructor
  intro a b c h1 h2
  unfold pyStrLe at *
  suffices h : ∀ as bs cs, strLeB as bs = true → strLeB bs cs = true →
      strLeB as cs = true from h a.data b.data c.data h1 h2
  intro as
  induction as with
  | nil => intro bs cs _ _; rfl
  | cons a as ih =>
    intro bs cs h1 h2
    cases bs with
    | nil => simp [strLeB] at h1
    | cons b bs =>
      cases cs with
      | nil => simp [strLeB] at h2
      | cons c cs =>
        simp only [strLeB] at h1 h2 ⊢
        rcases lt_trichotomy a b with hab | hab | hab
        · rcases lt_trichotomy b c with hbc | hbc | hbc
          · rw [if_pos (lt_trans hab hbc)]
          · subst hbc; rw [if_pos hab]
          · simp only [if_neg (lt_asymm hbc), if_pos hbc] at h2
            exact absurd h2 (by decide)
        · subst hab
          rcases lt_trichotomy a c with hac | hac | hac
          · rw [if_pos hac]
          · subst hac
            simp only [if_neg (lt_irrefl a)] at h1 h2 ⊢
            exact ih _ _ h1 h2
          · simp only [if_neg (lt_asymm hac), if_pos hac] at h2
            exact absurd h2 (by decide)
        · simp only [if_neg (lt_asymm hab), if_pos hab] at h1
          exact absurd h1 (by decide)

/-- Receiver-loop state invariant: the stored ids are the contiguous block
of the most recently assigned ids ending at `messageId`, the buffer size is
`min messageId 100`, and no stored text is empty. -/
def Inv (s : LoopState) : Prop :=
  s.buffer.map Message.id =
    List.range' (s.messageId + 1 - s.buffer.length) s.buffer.length ∧
  s.buffer.length = min s.messageId 100 ∧
  ∀ m ∈ s.buffer, m.text ≠ ""

/-- The ids assigned to appended messages over the iterations `tr` starting
from `s`, in assignment order (`message_id` changes exactly when a message
is appended, and then the new message carries the new value). -/
def traceIds (s : LoopState) : List LoopInput → List Nat
  | [] => []
  | i :: tr =>
    (if ((loopStep s i).1).messageId = s.messageId then ([] : List Nat)
     else [((loopStep s i).1).messageId]) ++ traceIds (loopStep s i).1 tr

/-- Three received lines `A\n`, `B\n`, `C\n`, for concrete runs. -/
def demoTrace : List LoopInput :=
  [ { ev := .data [0x41, 0x0A], ts := "10:00:00", now := 0, setupOk := false },
    { ev := .data [0x42, 0x0A], ts := "10:00:01", now := 0, setupOk := false },
    { ev := .data [0x43, 0x0A], ts := "10:00:02", now := 0, setupOk := false } ]

/-- 101 received lines, enough to overflow the 100-entry buffer once. -/
def bigTrace : List LoopInput :=
  List.replicate 101 { ev := .data [0x41, 0x0A], ts := "00:00:00", now := 0, setupOk := false }

theorem runTrace_cons (s : LoopState) (i : LoopInput) (tr : List LoopInput) :
    runTrace s (i :: tr) = runTrace (loopStep s i).1 tr := rfl

theorem runTrace_append (s : LoopState) (t1 t2 : List LoopInput) :
    runTrace s (t1 ++ t2) = runTrace (runTrace s t1) t2 := by
  simp [runTrace, List.foldl_append]

theorem reachable_init : Reachable initLoopState := ⟨[], rfl⟩

theorem reachable_runTrace {s : LoopState} (h : Reachable s) (tr : List LoopInput) :
    Reachable (runTrace s tr) := by
  obtain ⟨t0, ht⟩ := h
  exact ⟨t0 ++ tr, by rw [runTrace_append, ht]⟩

theorem inv_init : Inv initLoopState := by
  refine ⟨rfl, rfl, ?_⟩
  intro m h
  simp [initLoopState] at h

theorem inv_append (s : LoopState) (t ts : String) (ht : t ≠ "") (h : Inv s) :
    Inv { s with messageId := s.messageId + 1,
                 buffer := bufAppend s.buffer
                   { id := s.messageId + 1, text := t, timestamp := ts } } := by
  obtain ⟨hid, hlen, htxt⟩ := h
  have hlb : s.buffer.length ≤ 100 := by omega
  have hlc : s.buffer.length ≤ s.messageId := by omega
  by_cases hfull : s.buffer.length = 100
  · -- the deque is full: the oldest entry is dropped
    have hc : 100 ≤ s.messageId := by omega
    have hB : bufAppend s.buffer { id := s.messageId + 1, text := t, timestamp := ts } =
        s.buffer.drop 1 ++ [{ id := s.messageId + 1, text := t, timestamp := ts }] := by
      unfold bufAppend
      rw [if_pos (by simp [hfull])]
      rw [List.drop_append_of_le_length (by simp [hfull])]
      simp [hfull]
    refine ⟨?_, ?_, ?_⟩
    · simp only [hB, List.map_append, List.map_drop, hid, List.map_cons, List.map_nil]
      have h1 : s.buffer.length = 99 + 1 := by omega
      rw [h1, List.range'_succ, List.drop_succ_cons, List.drop_zero]
      have h3 : (List.drop 1 s.buffer ++
          [({ id := s.messageId + 1, text := t, timestamp := ts } : Message)]).length =
          99 + 1 := by
        simp [h1]
      rw [h3]
      conv_rhs => rw [List.range'_concat]
      have h4 : s.messageId + 1 - (99 + 1) + 1 = s.messageId + 1 + 1 - (99 + 1) := by
        omega
      have h5 : s.messageId + 1 + 1 - (99 + 1) + 1 * 99 = s.messageId + 1 := by omega
      rw [h4, h5]
    · simp only [hB, List.length_append, List.length_drop, List.length_cons,
        List.length_nil]
      omega
    · intro m hm
      simp only [hB, List.mem_append, List.mem_singleton] at hm
      rcases hm with hm | hm
      · exact htxt m (List.mem_of_mem_drop hm)
      · subst hm; exact ht
  · -- room remains: a plain append
    have hB : bufAppend s.buffer { id := s.messageId + 1, text := t, timestamp := ts } =
        s.buffer ++ [{ id := s.messageId + 1, text := t, timestamp := ts }] := by
      unfold bufAppend
      rw [if_neg (by simp; omega)]
    refine ⟨?_, ?_, ?_⟩
    · simp only [hB, List.map_append, hid, List.map_cons, List.map_nil]
      have h1 : (s.buffer ++
          [({ id := s.messageId + 1, text := t, timestamp := ts } : Message)]).length =
          s.buffer.length + 1 := by simp
      rw [h1, List.range'_concat]
      have h2 : s.messageId + 1 + 1 - (s.buffer.length + 1) =
          s.messageId + 1 - s.buffer.length := by omega
      have h3 : s.messageId + 1 - s.buffer.length + 1 * s.buffer.length =
          s.messageId + 1 := by omega
      rw [h2, h3]
    · simp only [hB, List.length_append, List.length_cons, List.length_nil]
      omega
    · intro m hm
      simp only [hB, List.mem_append, List.mem_singleton] at hm
      rcases hm with hm | hm
      · exact htxt m hm
      · subst hm; exact ht

theorem loopStep_open_noData (s : LoopState) (inp : LoopInput)
    (ho : s.connOpen = true) (hev : inp.ev = SerialEvent.noData) :
    loopStep s inp = (s, false) := by
  unfold loopStep
  rw [if_pos ho, hev]

theorem loopStep_open_data (s : LoopState) (inp : LoopInput) (raw : List Nat)
    (ho : s.connOpen = true) (hev : inp.ev = SerialEvent.data raw) :
    loopStep s inp =
      if decodeLine raw ≠ "" then
        ({ s with messageId := s.messageId + 1,
                  buffer := bufAppend s.buffer
                    { id := s.messageId + 1, text := decodeLine raw,
                      timestamp := inp.ts } },
          false)
      else (s, false) := by
  unfold loopStep
  rw [if_pos ho, hev]

theorem loopStep_open_readFail (s : LoopState) (inp : LoopInput)
    (ho : s.connOpen = true) (hev : inp.ev = SerialEvent.readFail) :
    loopStep s inp = ({ s with connOpen := false }, false) := by
  unfold loopStep
  rw [if_pos ho, hev]

theorem loopStep_closed (s : LoopState) (inp : LoopInput)
    (ho : s.connOpen = false) :
    loopStep s inp =
      if 2 ≤ inp.now - s.lastReconnect then
        ({ s with lastReconnect := inp.now, connOpen := inp.setupOk }, true)
      else (s, false) := by
  unfold loopStep
  rw [if_neg (by simp [ho])]

theorem inv_step (s : LoopState) (inp : LoopInput) (h : Inv s) :
    Inv (loopStep s inp).1 := by
  rcases ho : s.connOpen with _ | _
  · rw [loopStep_closed s inp ho]
    by_cases ht : 2 ≤ inp.now - s.lastReconnect
    · rw [if_pos ht]; exact h
    · rw [if_neg ht]; exact h
  · cases hev : inp.ev with
    | noData => rw [loopStep_open_noData s inp ho hev]; exact h
    | data raw =>
      rw [loopStep_open_data s inp raw ho hev]
      by_cases hl : decodeLine raw ≠ ""
      · rw [if_pos hl]
        exact inv_append s (decodeLine raw) inp.ts hl h
      · rw [if_neg hl]
        exact h
    | readFail => rw [loopStep_open_readFail s inp ho hev]; exact h

theorem inv_runTrace (s : LoopState) (tr : List LoopInput) (h : Inv s) :
    Inv (runTrace s tr) := by
  induction tr generalizing s with
  | nil => exact h
  | cons i tr ih => exact ih _ (inv_step s i h)

theorem reachable_inv {s : LoopState} (h : Reachable s) : Inv s := by
  obtain ⟨tr, ht⟩ := h
  exact ht ▸ inv_runTrace initLoopState tr inv_init

theorem messageId_step_le (s : LoopState) (inp : LoopInput) :
    s.messageId ≤ ((loopStep s inp).1).messageId := by
  rcases ho : s.connOpen with _ | _
  · rw [loopStep_closed s inp ho]
    by_cases ht : 2 ≤ inp.now - s.lastReconnect
    · rw [if_pos ht]
    · rw [if_neg ht]
  · cases hev : inp.ev with
    | noData => rw [loopStep_open_noData s inp ho hev]
    | data raw =>
      rw [loopStep_open_data s inp raw ho hev]
      by_cases hl : decodeLine raw ≠ ""
      · rw [if_pos hl]; exact Nat.le_succ _
      · rw [if_neg hl]
    | readFail => rw [loopStep_open_readFail s inp ho hev]

theorem messageId_runTrace_le (s : LoopState) (tr : List LoopInput) :
    s.messageId ≤ (runTrace s tr).messageId := by
  induction tr generalizing s with
  | nil => exact le_refl _
  | cons i tr ih => exact le_trans (messageId_step_le s i) (ih _)

/-- **C2, counterexample**: a write that fails in the generic exception
branch of `send_to_serial` (lines 160–161) returns failure while leaving
the connection open, so not every failed write closes the connection. -/
theorem c2_failed_write_counterexample :
    (send_to_serial { isOpen := true, written := [] } "hi"
        (WriteOutcome.otherErr "boom")).1.1 = false ∧
    (send_to_serial { isOpen := true, written := [] } "hi"
        (WriteOutcome.otherErr "boom")).2.isOpen = true :=
  ⟨rfl, rfl⟩

/-- **C2, amended**: a write on an open connection that fails with
`SerialException`/`OSError` returns failure `"USB connection lost"` and
leaves the connection closed for all subsequent observers; a write failing
in the generic exception branch returns failure but leaves the connection
state (including `isOpen`) unchanged. -/
theorem c2_failed_write_amended (c : Conn) (msg : String) (ho : c.isOpen = true) :
    (send_to_serial c msg WriteOutcome.serialErr).1.1 = false ∧
    (send_to_serial c msg WriteOutcome.serialErr).1.2 = "USB connection lost" ∧
    (send_to_serial c msg WriteOutcome.serialErr).2.isOpen = false ∧
    ∀ e, (send_to_serial c msg (WriteOutcome.otherErr e)).1.1 = false ∧
      (send_to_serial c msg (WriteOutcome.otherErr e)).2 = c := by
  simp [send_to_serial, ho]

/-- Witness for `c2_failed_write_amended` at a concrete open connection. -/
theorem c2_failed_write_amended_witness :
    (send_to_serial { isOpen := true, written := [] } "m"
        WriteOutcome.serialErr).2.isOpen = false :=
  (c2_failed_write_amended { isOpen := true, written := [] } "m" rfl).2.2.1

/-- **C3, counterexample**: the blank (whitespace-only) message `" "` is not
rejected: `if not message` (line 191) is false for a nonempty string, so
`" "` is written out (with the terminator) and the reply is `ok`. -/
theorem c3_empty_input_counterexample :
    (api_send " " { isOpen := true, written := [] } WriteOutcome.ok).1 =
      { status := "ok", message := "Message sent" } ∧
    (api_send " " { isOpen := true, written := [] } WriteOutcome.ok).2.written =
      [" \n"] :=
  ⟨rfl, rfl⟩

/-- **C3, amended**: `api_send` rejects exactly the empty message
synchronously with the `"Empty message"` error, leaving the connection
untouched; every nonempty message (whitespace-only ones included) is passed
to `send_to_serial`, which appends the line terminator `"\n"` before
writing, as the write log records on a successful write. -/
theorem c3_empty_input_amended :
    (∀ c out, api_send "" c out =
      ({ status := "error", message := "Empty message" }, c)) ∧
    (∀ msg c out, msg ≠ "" →
      (api_send msg c out).2 = (send_to_serial c msg out).2) ∧
    (∀ msg c, msg ≠ "" → c.isOpen = true →
      (api_send msg c WriteOutcome.ok).2.written = c.written ++ [msg ++ "\n"]) := by
  refine ⟨fun c out => by simp [api_send], ?_, ?_⟩
  · intro msg c out hmsg
    unfold api_send
    rw [if_neg hmsg]
    by_cases h : (send_to_serial c msg out).1.1
    · rw [if_pos h]
    · rw [if_neg h]
  · intro msg c hmsg hc
    unfold api_send send_to_serial
    rw [if_neg hmsg, if_pos hc]
    rfl

/-- Witness for `c3_empty_input_amended` at concrete inputs. -/
theorem c3_empty_input_amended_witness :
    (api_send "ping" { isOpen := true, written := [] } WriteOutcome.ok).2.written =
      [] ++ ["ping" ++ "\n"] :=
  c3_empty_input_amended.2.2 "ping" { isOpen := true, written := [] }
    (by decide) rfl

/-- **C8, counterexample**: a mid-read failure at wall-clock `100` (with the
last open attempt recorded at `0`) is followed, on the very next iteration
at wall-clock `101`, by an open attempt — only 1 second after the failure,
sooner than the 2-second reconnect interval.  The gate at line 129 measures
from `last_reconnect_attempt`, not from the failure. -/
theorem c8_reconnect_counterexample :
    ((loopStep initLoopState
        { ev := SerialEvent.readFail, ts := "", now := 100, setupOk := true }).1.connOpen
        = false) ∧
    ((loopStep (loopStep initLoopState
        { ev := SerialEvent.readFail, ts := "", now := 100, setupOk := true }).1
        { ev := SerialEvent.noData, ts := "", now := 101, setupOk := true }).2
        = true) ∧
    (101 : ℚ) - 100 < 2 := by
  refine ⟨rfl, ?_, by norm_num⟩
  rw [loopStep_closed _ _ rfl]
  rw [if_pos (by norm_num [initLoopState, loopStep])]

/-- **C8, amended**: in the Closed state an open attempt happens exactly
when at least the reconnect interval (2 s) has elapsed since the last
recorded attempt time (`last_reconnect_attempt`, initially 0), and the
attempt updates that record to the current time; after a mid-read failure
the next attempt is therefore gated on the previous *attempt* time, and may
occur sooner than 2 s after the failure itself. -/
theorem c8_reconnect_amended (s : LoopState) (inp : LoopInput) :
    ((loopStep s inp).2 = true ↔
      s.connOpen = false ∧ 2 ≤ inp.now - s.lastReconnect) ∧
    ((loopStep s inp).2 = true →
      ((loopStep s inp).1).lastReconnect = inp.now) := by
  rcases ho : s.connOpen with _ | _
  · rw [loopStep_closed s inp ho]
    by_cases ht : 2 ≤ inp.now - s.lastReconnect
    · rw [if_pos ht]
      exact ⟨⟨fun _ => ⟨rfl, ht⟩, fun _ => rfl⟩, fun _ => rfl⟩
    · rw [if_neg ht]
      exact ⟨⟨fun h => Bool.noConfusion h, fun h => absurd h.2 ht⟩,
        fun h => Bool.noConfusion h⟩
  · have h2 : (loopStep s inp).2 = false := by
      cases hev : inp.ev with
      | noData => rw [loopStep_open_noData s inp ho hev]
      | data raw =>
        rw [loopStep_open_data s inp raw ho hev]
        by_cases hl : decodeLine raw ≠ ""
        · rw [if_pos hl]
        · rw [if_neg hl]
      | readFail => rw [loopStep_open_readFail s inp ho hev]
    rw [h2]
    exact ⟨⟨fun h => Bool.noConfusion h,
        fun h => Bool.noConfusion h.1⟩,
      fun h => Bool.noConfusion h⟩

/-- Witness for `c8_reconnect_amended` at a concrete closed state. -/
theorem c8_reconnect_amended_witness :
    (loopStep { connOpen := false, messageId := 0, lastReconnect := 0, buffer := [] }
        { ev := SerialEvent.noData, ts := "", now := 5, setupOk := true }).2 = true :=
  (c8_reconnect_amended
      { connOpen := false, messageId := 0, lastReconnect := 0, buffer := [] }
      { ev := SerialEvent.noData, ts := "", now := 5, setupOk := true }).1.mpr
    ⟨rfl, by norm_num⟩

/-- **C10**: a present but non-integer `last_id` query parameter makes
`api_receive` fail with an unhandled `ValueError` (line 205, before the
buffer is read under the lock) rather than return a structured response,
for every buffer and connection state, which are left unchanged. -/
theorem c10_bad_last_id (s : String) (buf : List Message) (connOpen : Bool)
    (port : Option String) (h : pyIntParse s = none) :
    api_receive (some s) buf connOpen port =
      (Except.error "ValueError", (buf, connOpen)) := by
  simp [api_receive, h]

/-- Witness for `c10_bad_last_id` at the concrete parameter `"abc"`. -/
theorem c10_bad_last_id_witness :
    api_receive (some "abc") [] true none =
      (Except.error "ValueError", ([], true)) :=
  c10_bad_last_id "abc" [] true none (by decide)

/-- **C5**: the port-discovery step sorts the candidate device paths
lexicographically (the sorted list is ordered under the code-point order
and is a permutation of the candidates) and deterministically returns the
entry at index 1; with fewer than 2 candidates it fails; on the candidates
`["/dev/ttyACM0", "/dev/ttyACM1"]` in any enumeration order it selects
`"/dev/ttyACM1"`. -/
theorem c5_select_port :
    (∀ candidates : List String, candidates.length < 2 →
      selectPort candidates = none) ∧
    (∀ candidates : List String,
      List.Sorted pyStrLe (List.insertionSort pyStrLe candidates) ∧
      (List.insertionSort pyStrLe candidates).Perm candidates ∧
      (2 ≤ candidates.length →
        selectPort candidates = (List.insertionSort pyStrLe candidates)[1]?)) ∧
    (∀ candidates : List String,
      candidates.Perm ["/dev/ttyACM0", "/dev/ttyACM1"] →
      selectPort candidates = some "/dev/ttyACM1") := by
  refine ⟨?_, ?_, ?_⟩
  · intro l h
    unfold selectPort
    rw [if_pos (by rw [List.length_insertionSort]; exact h)]
  · intro l
    refine ⟨List.sorted_insertionSort pyStrLe l, List.perm_insertionSort pyStrLe l, ?_⟩
    intro h
    unfold selectPort
    rw [if_neg (by rw [List.length_insertionSort]; omega)]
  · intro l h
    have h0 : "/dev/ttyACM0" ∈ l := h.mem_iff.mpr (by simp)
    have h1 : "/dev/ttyACM1" ∈ l := h.mem_iff.mpr (by simp)
    rcases l with _ | ⟨x, _ | ⟨y, _ | ⟨z, t⟩⟩⟩
    · simp at h0
    · simp at h0 h1
      subst h0
      exact absurd h1 (by decide)
    · simp at h0 h1
      rcases h0 with h0 | h0 <;> rcases h1 with h1 | h1
      · subst h0; exact absurd h1 (by decide)
      · subst h0; subst h1; decide
      · subst h0; subst h1; decide
      · subst h0; exact absurd h1 (by decide)
    · have := h.length_eq
      simp at this

set_option maxHeartbeats 1000000 in
theorem utf8DecodeAux_ignore_isSome (fuel : Nat) (bs : List Nat) :
    bs.length ≤ fuel → (utf8DecodeAux ErrMode.ignore fuel bs).isSome = true := by
  induction fuel, bs using utf8DecodeAux.induct ErrMode.ignore
  all_goals intro hlen
  all_goals simp only [List.length_cons, List.length_nil] at hlen
  all_goals try omega
  all_goals simp only [utf8DecodeAux, decodeErr]
  all_goals repeat first
    | rw [if_pos (by first | assumption | omega)]
    | rw [if_neg (by first | assumption | omega)]
  all_goals try simp only [Option.isSome_map', Option.isSome_map, Option.isSome_some]
  all_goals first
    | rfl
    | (rename_i ih;
       exact ih (by first | omega | (simp only [List.length_cons]; omega)))

set_option maxHeartbeats 1000000 in
theorem utf8DecodeAux_strict_agree (fuel : Nat) (bs : List Nat) :
    ∀ cs, utf8DecodeAux ErrMode.strict fuel bs = some cs →
      utf8DecodeAux ErrMode.ignore fuel bs = some cs := by
  induction fuel, bs using utf8DecodeAux.induct ErrMode.strict
  all_goals intro cs hcs
  all_goals simp only [utf8DecodeAux, decodeErr] at hcs ⊢
  all_goals repeat first
    | rw [if_pos (by first | assumption | omega)] at hcs ⊢
    | rw [if_neg (by first | assumption | omega)] at hcs ⊢
  all_goals first
    | exact hcs
    | (simp at hcs; done)
    | (obtain ⟨cs', h1, h2⟩ := Option.map_eq_some'.mp hcs
       rename_i ih
       simp [ih cs' h1, h2])

/-- **C4, counterexample**: line 106 decodes with `errors='ignore'`, which
drops invalid byte sequences rather than replacing them: decoding
`[0xFF, 0x41]` yields `"A"`, while replacement (`errors='replace'`) would
yield `"�A"`, a different string. -/
theorem c4_decode_counterexample :
    pyDecode ErrMode.ignore [0xFF, 0x41] = some "A" ∧
    pyDecode ErrMode.replace [0xFF, 0x41] = some "�A" ∧
    ("A" : String) ≠ "�A" :=
  ⟨by decide, by decide, by decide⟩

/-- **C4, amended**: every received line is decoded permissively with
`errors='ignore'`: decoding never raises a fatal error (it always yields a
string, for every input byte sequence), agrees with strict UTF-8 decoding
on valid input, and drops invalid byte sequences rather than replacing
them. -/
theorem c4_decode_amended :
    (∀ bs : List Nat, ∃ s : String, pyDecode ErrMode.ignore bs = some s) ∧
    (∀ (bs : List Nat) (cs : List Char),
      utf8DecodeWith ErrMode.strict bs = some cs →
      utf8DecodeWith ErrMode.ignore bs = some cs) := by
  constructor
  · intro bs
    have h := utf8DecodeAux_ignore_isSome bs.length bs (le_refl _)
    obtain ⟨cs, hcs⟩ := Option.isSome_iff_exists.mp h
    exact ⟨⟨cs⟩, by unfold pyDecode utf8DecodeWith; rw [hcs]; rfl⟩
  · intro bs cs h
    exact utf8DecodeAux_strict_agree bs.length bs cs h

/-- Witness for `c4_decode_amended` on the valid input `[0x41]`. -/
theorem c4_decode_amended_witness :
    utf8DecodeWith ErrMode.ignore [0x41] = some ['A'] :=
  c4_decode_amended.2 [0x41] ['A'] (by decide)

/-- Witness for `c5_select_port` on concrete reversed candidates. -/
theorem c5_select_port_witness :
    selectPort ["/dev/ttyACM1", "/dev/ttyACM0"] = some "/dev/ttyACM1" :=
  c5_select_port.2.2 ["/dev/ttyACM1", "/dev/ttyACM0"] (by decide)

theorem range'_getLast? (a k : Nat) :
    (List.range' a (k + 1)).getLast? = some (a + k) := by
  rw [List.range'_concat, List.getLast?_concat]
  simp

theorem messageId_step_cases (s : LoopState) (inp : LoopInput) :
    ((loopStep s inp).1).messageId = s.messageId ∨
    ((loopStep s inp).1).messageId = s.messageId + 1 := by
  rcases ho : s.connOpen with _ | _
  · rw [loopStep_closed s inp ho]
    by_cases ht : 2 ≤ inp.now - s.lastReconnect
    · rw [if_pos ht]; left; rfl
    · rw [if_neg ht]; left; rfl
  · cases hev : inp.ev with
    | noData => rw [loopStep_open_noData s inp ho hev]; left; rfl
    | data raw =>
      rw [loopStep_open_data s inp raw ho hev]
      by_cases hl : decodeLine raw ≠ ""
      · rw [if_pos hl]; right; rfl
      · rw [if_neg hl]; left; rfl
    | readFail => rw [loopStep_open_readFail s inp ho hev]; left; rfl

theorem traceIds_eq (s : LoopState) (tr : List LoopInput) :
    traceIds s tr =
      List.range' (s.messageId + 1)
        ((runTrace s tr).messageId - s.messageId) := by
  induction tr generalizing s with
  | nil => simp [traceIds, runTrace]
  | cons i tr ih =>
    rw [runTrace_cons]
    simp only [traceIds]
    rcases messageId_step_cases s i with hc | hc
    · rw [if_pos hc, ih, hc]
      simp
    · rw [if_neg (by omega), ih, hc]
      have h1 : (runTrace ((loopStep s i).1) tr).messageId - s.messageId =
          ((runTrace ((loopStep s i).1) tr).messageId - (s.messageId + 1)) + 1 := by
        have := messageId_runTrace_le ((loopStep s i).1) tr
        omega
      rw [h1, List.range'_succ]
      simp

/-- **C1**: `api_receive` with a valid cursor returns `query buf n`; `query`
returns exactly the stored messages with id strictly greater than the
cursor, in original append order (a sublist of the buffer, containing a
message iff its id exceeds the cursor); for a reachable buffer, a cursor at
least the newest stored id yields the empty sequence; and while at most 100
messages have been appended, `query 0` returns the whole buffer — all N
messages in append order with the strictly increasing ids 1..N. -/
theorem c1_query_exact :
    (∀ (str : String) (n : Int) (buf : List Message) (conn : Bool)
        (port : Option String), pyIntParse str = some n →
      api_receive (some str) buf conn port =
        (Except.ok { messages := query buf n, usb_connected := conn,
                     usb_port := port.getD "N/A" }, (buf, conn))) ∧
    (∀ (buf : List Message) (q : Int),
      (query buf q).Sublist buf ∧
      ∀ m, m ∈ query buf q ↔ m ∈ buf ∧ q < (m.id : Int)) ∧
    (∀ (s : LoopState) (q : Int) (mNew : Message), Reachable s →
      s.buffer.getLast? = some mNew → (mNew.id : Int) ≤ q →
      query s.buffer q = []) ∧
    (∀ s : LoopState, Reachable s → s.messageId ≤ 100 →
      query s.buffer 0 = s.buffer ∧
      s.buffer.map Message.id = List.range' 1 s.messageId ∧
      s.buffer.length = s.messageId) := by
  refine ⟨?_, ?_, ?_, ?_⟩
  · intro str n buf conn port h
    simp [api_receive, h]
  · intro buf q
    exact ⟨List.filter_sublist buf, fun m => by simp [query, List.mem_filter]⟩
  · intro s q mNew hr hlast hq
    obtain ⟨hid, hlen, -⟩ := reachable_inv hr
    have hlb : s.buffer.length ≤ s.messageId := by omega
    have hmap := List.getLast?_map Message.id s.buffer
    rw [hlast, hid] at hmap
    rcases hn : s.buffer.length with _ | k
    · rw [List.length_eq_zero.mp hn]; rfl
    · rw [hn, range'_getLast?] at hmap
      have hida : mNew.id = s.messageId := by
        have := Option.some.inj hmap.symm
        omega
      rw [query, List.filter_eq_nil_iff]
      intro m hm
      have : m.id ∈ List.range' (s.messageId + 1 - s.buffer.length)
          s.buffer.length := by
        rw [← hid]
        exact List.mem_map_of_mem Message.id hm
      rw [List.mem_range'_1] at this
      simp only [decide_eq_true_eq, not_lt]
      have : m.id ≤ s.messageId := by omega
      have : (m.id : Int) ≤ (s.messageId : Int) := by exact_mod_cast this
      omega
  · intro s hr hle
    obtain ⟨hid, hlen, -⟩ := reachable_inv hr
    have hl : s.buffer.length = s.messageId := by omega
    have h1 : s.messageId + 1 - s.buffer.length = 1 := by omega
    refine ⟨?_, by rw [hid, h1, hl], by rw [hl]⟩
    rw [query, List.filter_eq_self]
    intro m hm
    have : m.id ∈ List.range' (s.messageId + 1 - s.buffer.length)
        s.buffer.length := by
      rw [← hid]
      exact List.mem_map_of_mem Message.id hm
    rw [List.mem_range'_1] at this
    simp only [decide_eq_true_eq]
    have h2 : 1 ≤ m.id := by omega
    omega

/-- Witness for `c1_query_exact`: after the three-line demo run, `query 0`
returns the whole buffer. -/
theorem c1_query_exact_witness :
    query (runTrace initLoopState demoTrace).buffer 0 =
      (runTrace initLoopState demoTrace).buffer :=
  (c1_query_exact.2.2.2 (runTrace initLoopState demoTrace)
    ⟨demoTrace, rfl⟩ (by decide)).1

/-- **C6**: a reachable buffer never exceeds 100 entries; appending to a
full buffer drops the oldest entry; and once more than 100 messages have
been appended, every already-evicted id (any id at distance ≥ 100 below the
counter) is absent from every future buffer and from every future query
result. -/
theorem c6_buffer_invariant :
    (∀ s : LoopState, Reachable s → s.buffer.length ≤ 100) ∧
    (∀ (b : List Message) (m : Message), b.length = 100 →
      bufAppend b m = b.drop 1 ++ [m]) ∧
    (∀ (s : LoopState) (tr : List LoopInput) (i : Nat), Reachable s →
      100 < s.messageId → 1 ≤ i → i + 100 ≤ s.messageId →
      i ∉ (runTrace s tr).buffer.map Message.id ∧
      ∀ q, i ∉ (query (runTrace s tr).buffer q).map Message.id) := by
  refine ⟨?_, ?_, ?_⟩
  · intro s hr
    have := (reachable_inv hr).2.1
    omega
  · intro b m hb
    unfold bufAppend
    rw [if_pos (by simp [hb])]
    rw [List.drop_append_of_le_length (by simp [hb])]
    simp [hb]
  · intro s tr i hr hc hi1 hi2
    have hr' : Reachable (runTrace s tr) := reachable_runTrace hr tr
    obtain ⟨hid, hlen, -⟩ := reachable_inv hr'
    have hmono := messageId_runTrace_le s tr
    have hnot : i ∉ (runTrace s tr).buffer.map Message.id := by
      rw [hid, List.mem_range'_1]
      intro hmem
      omega
    refine ⟨hnot, ?_⟩
    intro q hq
    apply hnot
    simp only [List.mem_map] at hq ⊢
    obtain ⟨m, hm, hmi⟩ := hq
    exact ⟨m, (List.filter_sublist _).mem hm, hmi⟩

set_option maxRecDepth 20000 in
/-- Witness for `c6_buffer_invariant`: after 101 appends, the evicted id 1
is gone from the buffer. -/
theorem c6_buffer_invariant_witness :
    1 ∉ (runTrace (runTrace initLoopState bigTrace) []).buffer.map Message.id :=
  (c6_buffer_invariant.2.2 (runTrace initLoopState bigTrace) [] 1
    ⟨bigTrace, rfl⟩ (by decide) (by decide) (by decide)).1

/-- **C7**: message ids start at 1 and increase monotonically over the whole
thread lifetime: the counter never decreases at any iteration, a
closed-state (reconnect) iteration changes neither counter nor buffer, and
along any run from thread start the assigned ids are exactly
1, 2, …, final counter, in order — no id is reused, none is skipped, and a
disconnect/reconnect cycle never resets the counter. -/
theorem c7_monotonic_ids :
    (∀ (s : LoopState) (inp : LoopInput),
      s.messageId ≤ ((loopStep s inp).1).messageId) ∧
    (∀ (s : LoopState) (inp : LoopInput), s.connOpen = false →
      ((loopStep s inp).1).messageId = s.messageId ∧
      ((loopStep s inp).1).buffer = s.buffer) ∧
    (∀ tr : List LoopInput,
      traceIds initLoopState tr =
        List.range' 1 ((runTrace initLoopState tr).messageId)) := by
  refine ⟨messageId_step_le, ?_, ?_⟩
  · intro s inp ho
    rw [loopStep_closed s inp ho]
    by_cases ht : 2 ≤ inp.now - s.lastReconnect
    · rw [if_pos ht]; exact ⟨rfl, rfl⟩
    · rw [if_neg ht]; exact ⟨rfl, rfl⟩
  · intro tr
    have h := traceIds_eq initLoopState tr
    simpa [initLoopState] using h

/-- Witness for `c7_monotonic_ids` at a concrete closed state. -/
theorem c7_monotonic_ids_witness :
    ((loopStep
      { connOpen := false, messageId := 5, lastReconnect := 0, buffer := [] }
      { ev := SerialEvent.noData, ts := "", now := 100, setupOk := true
        }).1).messageId = 5 :=
  (c7_monotonic_ids.2.1
    { connOpen := false, messageId := 5, lastReconnect := 0, buffer := [] }
    { ev := SerialEvent.noData, ts := "", now := 100, setupOk := true } rfl).1

/-- **C9**: a received line that is empty after stripping trailing
whitespace is discarded: that iteration returns the state unchanged (no
message appended, counter untouched), every stored message of a reachable
state has nonempty text, and the stored ids always form the contiguous
block ending at the counter — blank lines leave no gaps. -/
theorem c9_blank_lines :
    (∀ (s : LoopState) (inp : LoopInput) (raw : List Nat),
      s.connOpen = true → inp.ev = SerialEvent.data raw →
      decodeLine raw = "" → loopStep s inp = (s, false)) ∧
    (∀ s : LoopState, Reachable s → ∀ m ∈ s.buffer, m.text ≠ "") ∧
    (∀ s : LoopState, Reachable s →
      s.buffer.map Message.id =
        List.range' (s.messageId + 1 - s.buffer.length) s.buffer.length) := by
  refine ⟨?_, fun s h => (reachable_inv h).2.2, fun s h => (reachable_inv h).1⟩
  intro s inp raw ho hev hl
  rw [loopStep_open_data s inp raw ho hev, if_neg (by simp [hl])]

/-- Witness for `c9_blank_lines`: a lone newline byte is discarded. -/
theorem c9_blank_lines_witness :
    loopStep initLoopState
      { ev := SerialEvent.data [0x0A], ts := "t", now := 0, setupOk := false } =
      (initLoopState, false) :=
  c9_blank_lines.1 initLoopState
    { ev := SerialEvent.data [0x0A], ts := "t", now := 0, setupOk := false }
    [0x0A] rfl rfl (by decide)

end Zero2W
